import Mathlib

/-!
Verification of the HLS playlist orchestrator core: the segment registry
(`registerSegment`, `getRenditionSnapshot`, `endStream`, `activeStreamCount`
over an in-memory store), the two contiguous-window selection algorithms
(`contiguousSlidingWindow` and `contiguousVisibleSegments`), and the playlist
renderer (`BuildLivePlaylist`).

Modelling conventions (shallow embedding of the Go source):
* Go `int64` sequence numbers are `Int`; `float64` durations are `ℚ`
  (every duration appearing in the claims is exactly representable);
  `time.Time` acceptance stamps are an abstract `Nat` tick supplied by the
  caller of `registerSegment` (modelling `time.Now()`).
* Go maps (`map[StreamID]*StreamState`, `map[RenditionID]*RenditionState`,
  `map[int64]Segment`) are association lists with insert-or-replace
  (`setKey`); the repository only ever inserts fresh segment keys, which an
  association list append models exactly.  Go's randomized map iteration
  order is irrelevant here: every result proved below is either keyed
  lookup, a sorted copy, or a count.
* Go's `sort.Slice` is modelled by `List.insertionSort` on the same key;
  the inputs the repository sorts have pairwise-distinct keys, so any
  correct sort yields the same list.
* A Go runtime panic (slice bounds out of range) is modelled by `Option`:
  `contiguousVisibleSegments` returns `none` exactly when the Go code
  faults, `some` with its value otherwise.
-/

namespace HLS

/-- A single HLS media segment (`orchestrator.Segment`): sequence number,
duration in seconds, opaque path, and the acceptance tick assigned by the
registry (`ReceivedAt`). -/
structure Segment where
  sequence : Int
  duration : ℚ
  path : String
  receivedAt : Nat
deriving DecidableEq, Repr

/-- All in-memory state for one rendition (`orchestrator.RenditionState`).
`segments` models the Go map `map[int64]Segment` as an association list
keyed by sequence number. -/
structure RenditionState where
  id : String
  segments : List (Int × Segment)
  ended : Bool
deriving DecidableEq, Repr

/-- Top-level in-memory state for one stream (`orchestrator.StreamState`). -/
structure StreamState where
  id : String
  renditions : List (String × RenditionState)
  ended : Bool
deriving DecidableEq, Repr

/-- The store contents (`InMemoryStore.streams`): a map from stream id to
stream state, modelled as an association list. -/
abbrev RepoState := List (String × StreamState)

/-- The empty store (`NewInMemoryStore`). -/
def initState : RepoState := []

/-- Keyed lookup in an association list, the model of Go map indexing. -/
def lookupKey {κ α : Type} [DecidableEq κ] (k : κ) : List (κ × α) → Option α
  | [] => none
  | (k2, v) :: rest => if k2 = k then some v else lookupKey k rest

/-- Keyed insert-or-replace in an association list, the model of Go map
assignment (`m[k] = v`) and of `Store.SetStream`. -/
def setKey {κ α : Type} [DecidableEq κ] (k : κ) (v : α) : List (κ × α) → List (κ × α)
  | [] => [(k, v)]
  | (k2, v2) :: rest => if k2 = k then (k, v) :: rest else (k2, v2) :: setKey k v rest

/-- The value-level registration errors (`ErrStreamEnded`, `ErrRenditionEnded`). -/
inductive RegErr where
  | streamEnded
  | renditionEnded
deriving DecidableEq, Repr

/-- `Store.GetStream` composed over the association list. -/
def streamOf (st : RepoState) (sid : String) : Option StreamState :=
  lookupKey sid st

/-- Two-level lookup of a rendition: `none` when the stream or the rendition
does not exist. -/
def renditionOf (st : RepoState) (sid rid : String) : Option RenditionState :=
  match streamOf st sid with
  | none => none
  | some stream => lookupKey rid stream.renditions

/-- `InMemoryRepository.RegisterSegment`: get-or-create the stream and the
rendition, reject if either is ended, treat an existing sequence key as a
no-op, otherwise store the segment stamped with the acceptance tick `now`
(the model of `time.Now()`).  In the Go source the get-or-create helpers
write freshly created states into the store before the guards run; a fresh
stream or rendition is never ended and has no segments, so no early return
ever follows a creation and the functional write-back below is equivalent. -/
def registerSegment (st : RepoState) (sid rid : String) (seg : Segment) (now : Nat) :
    RepoState × Option RegErr :=
  let stream := (lookupKey sid st).getD { id := sid, renditions := [], ended := false }
  if stream.ended then (st, some RegErr.streamEnded)
  else
    let rendition := (lookupKey rid stream.renditions).getD
      { id := rid, segments := [], ended := false }
    if rendition.ended then (st, some RegErr.renditionEnded)
    else if (lookupKey seg.sequence rendition.segments).isSome then (st, none)
    else
      let rendition2 := { rendition with
        segments := rendition.segments ++ [(seg.sequence, { seg with receivedAt := now })] }
      let stream2 := { stream with renditions := setKey rid rendition2 stream.renditions }
      (setKey sid stream2 st, none)

/-- Sort a segment association list ascending by its sequence-number key,
the model of the `sort.Slice` over collected map keys in
`GetRenditionSnapshot`. -/
def sortPairs (l : List (Int × Segment)) : List (Int × Segment) :=
  l.insertionSort (fun a b => a.1 ≤ b.1)

/-- `InMemoryRepository.GetRenditionSnapshot`: `none` when the stream or
rendition is missing, otherwise the segments sorted ascending by sequence
key together with the rendition's ended flag. -/
def getRenditionSnapshot (st : RepoState) (sid rid : String) :
    Option (List Segment × Bool) :=
  match streamOf st sid with
  | none => none
  | some stream =>
    match lookupKey rid stream.renditions with
    | none => none
    | some rendition => some ((sortPairs rendition.segments).map Prod.snd, rendition.ended)

/-- Mark one rendition ended (the loop body of `EndStream`'s cascade). -/
def endRendition (r : RenditionState) : RenditionState :=
  { r with ended := true }

/-- `InMemoryRepository.EndStream`: a no-op for an unknown or already ended
stream, otherwise sets the stream's ended flag and cascades to every
rendition.  The error component is always `none` (the Go method always
returns `nil`). -/
def endStream (st : RepoState) (sid : String) : RepoState × Option RegErr :=
  match streamOf st sid with
  | none => (st, none)
  | some stream =>
    if stream.ended then (st, none)
    else
      (setKey sid
        { stream with
          ended := true
          renditions := stream.renditions.map (fun p => (p.1, endRendition p.2)) }
        st, none)

/-- `InMemoryRepository.ActiveStreamCount`: the number of stored streams
whose ended flag is false. -/
def activeStreamCount (st : RepoState) : Nat :=
  (st.filter (fun p => !p.2.ended)).length

/-- One registry operation, for reachability statements over the public
repository interface. -/
inductive Op where
  | register (sid rid : String) (seg : Segment) (now : Nat)
  | endStr (sid : String)
  | snapshot (sid rid : String)
  | countStreams
deriving Repr

/-- State transition of one registry operation (the two read operations
leave the state unchanged). -/
def applyOp (st : RepoState) : Op → RepoState
  | Op.register sid rid seg now => (registerSegment st sid rid seg now).1
  | Op.endStr sid => (endStream st sid).1
  | Op.snapshot _ _ => st
  | Op.countStreams => st

/-- Run a list of registry operations from a given state. -/
def runOps (st : RepoState) (ops : List Op) : RepoState :=
  ops.foldl applyOp st

/-- Sort a segment list ascending by sequence, the model of the
`sort.Slice` call inside `contiguousVisibleSegments`. -/
def sortBySeq (l : List Segment) : List Segment :=
  l.insertionSort (fun a b => a.sequence ≤ b.sequence)

/-- The shared loop body of both window selectors: keep consuming segments
while each one's sequence is exactly one more than the previous. -/
def contigFrom (prev : Int) : List Segment → List Segment
  | [] => []
  | s :: rest => if s.sequence = prev + 1 then s :: contigFrom s.sequence rest else []

/-- The maximal contiguous run starting at the first element (both Go loops
always keep index 0 and stop at the first gap). -/
def contigRun : List Segment → List Segment
  | [] => []
  | s :: rest => s :: contigFrom s.sequence rest

/-- `contiguousSlidingWindow` (the history-anchored variant, not wired into
the serving path): empty for non-positive window sizes or empty input,
otherwise the contiguous run from the start of the list truncated to its
last `windowSize` elements. -/
def contiguousSlidingWindow (segs : List Segment) (windowSize : Int) : List Segment :=
  if windowSize ≤ 0 ∨ segs.isEmpty then []
  else
    let out := contigRun segs
    out.drop (out.length - windowSize.toNat)

/-- `contiguousVisibleSegments` (the live-edge variant used by the serving
path): sort, take the last `windowSize` elements as the candidate window,
then keep its contiguous prefix.  For `windowSize < 0` on a non-empty list
the Go code evaluates `segs[len(segs)-windowSize:]` with a start index
beyond `len(segs)` and panics with a slice-bounds error; that fault is
modelled as `none`.  For `windowSize ≥ 0` the guarded Go start index equals
the truncated subtraction `segs.length - windowSize.toNat`. -/
def contiguousVisibleSegments (segs : List Segment) (windowSize : Int) :
    Option (List Segment) :=
  if segs.isEmpty then some []
  else if windowSize < 0 then none
  else some (contigRun ((sortBySeq segs).drop (segs.length - windowSize.toNat)))

/-- Round `10 * q` to the nearest integer, ties to even: the model of how
Go's `fmt` rounds an exact decimal expansion at the last kept digit.
Implemented by integer arithmetic on the reduced fraction (`q.den` is
positive, so `Int.fdiv` of the scaled numerator is the floor). -/
def tenthsOf (q : ℚ) : Int :=
  let n := 10 * q.num
  let d : Int := q.den
  let f := Int.fdiv n d
  let r2 := 2 * (n - f * d)
  if r2 < d then f
  else if r2 > d then f + 1
  else if f % 2 = 0 then f else f + 1

/-- Format a rational with exactly one decimal digit, the model of
`fmt.Sprintf` with the one-decimal float verb applied to an exactly
representable duration. -/
def fmtOneDecimal (q : ℚ) : String :=
  let n := tenthsOf q
  (if n < 0 then "-" else "") ++ toString (n.natAbs / 10) ++ "." ++ toString (n.natAbs % 10)

/-- Ceiling of a rational as an integer (`int(math.Ceil(max))`), again via
floor division on the reduced fraction. -/
def ratCeil (q : ℚ) : Int :=
  -(Int.fdiv (-q.num) q.den)

/-- `targetDurationFromSegments`: ceiling of the maximum duration, with 1 as
the floor value when no duration is positive. -/
def targetDurationFromSegments (segments : List Segment) : Int :=
  let m := segments.foldl (fun acc seg => if acc < seg.duration then seg.duration else acc) 0
  if m ≤ 0 then 1 else ratCeil m

/-- The per-segment block written by `BuildLivePlaylist`. -/
def fmtSeg (seg : Segment) : String :=
  "#EXTINF:" ++ fmtOneDecimal seg.duration ++ ",\n" ++ seg.path ++ "\n"

/-- Everything `BuildLivePlaylist` writes before the optional end marker. -/
def playlistBody : List Segment → String
  | [] =>
    "#EXTM3U\n#EXT-X-VERSION:3\n#EXT-X-TARGETDURATION:1\n#EXT-X-MEDIA-SEQUENCE:0\n"
  | s0 :: rest =>
    "#EXTM3U\n#EXT-X-VERSION:3\n#EXT-X-TARGETDURATION:"
      ++ toString (targetDurationFromSegments (s0 :: rest))
      ++ "\n#EXT-X-MEDIA-SEQUENCE:" ++ toString s0.sequence ++ "\n\n"
      ++ String.join ((s0 :: rest).map fmtSeg)

/-- `BuildLivePlaylist`: the body followed by `#EXT-X-ENDLIST` exactly when
`ended` is true (in the Go source both branches write the marker last). -/
def BuildLivePlaylist (segments : List Segment) (ended : Bool) : String :=
  playlistBody segments ++ (if ended then "#EXT-X-ENDLIST\n" else "")

/-- Split a character list at newline characters (observation function for
stating which lines a playlist consists of). -/
def splitNl : List Char → List (List Char)
  | [] => [[]]
  | c :: cs =>
    let r := splitNl cs
    if c = '\n' then [] :: r
    else
      match r with
      | [] => [[c]]
      | h :: t => (c :: h) :: t

/-- The lines of a string: structural splitter at newline characters. -/
def linesOf (s : String) : List String :=
  (splitNl s.data).map List.asString

/-- `Service.GetPlaylist` for a service constructed with window size `w`:
snapshot, select the visible window with `contiguousVisibleSegments`, and
render.  Outer `none` models the selector's panic propagating; `some none`
models the `("", false)` not-found return; `some (some s)` is the served
playlist. -/
def GetPlaylist (w : Int) (st : RepoState) (sid rid : String) : Option (Option String) :=
  match getRenditionSnapshot st sid rid with
  | none => some none
  | some (segments, ended) =>
    match contiguousVisibleSegments segments w with
    | none => none
    | some window => some (some (BuildLivePlaylist window ended))

/-- Sorted ascending by sequence: each adjacent pair is non-decreasing. -/
def SortedBySeq (l : List Segment) : Prop :=
  List.Chain' (fun a b => a.sequence ≤ b.sequence) l

/-- The no-gap property: every adjacent pair of segments differs in
sequence by exactly one. -/
def NoGap (l : List Segment) : Prop :=
  List.Chain' (fun a b => b.sequence = a.sequence + 1) l

/-- The cascading-end invariant: an ended stream contains only ended
renditions. -/
def EndedInv (st : RepoState) : Prop :=
  ∀ sid s, streamOf st sid = some s → s.ended = true →
    ∀ rid r, lookupKey rid s.renditions = some r → r.ended = true

/-- A rendition stores each segment under its own sequence number, which is
how `RegisterSegment` populates the Go map `Segments`. -/
def KeyCoherent (r : RenditionState) : Prop :=
  ∀ p ∈ r.segments, p.1 = p.2.sequence

/-- Structural decision procedure for adjacency chains over segments, so
that witness states evaluate by `decide`. -/
def decChain (p : Segment → Segment → Prop) [DecidableRel p] :
    ∀ l : List Segment, Decidable (List.Chain' p l)
  | [] => isTrue List.chain'_nil
  | [a] => isTrue (List.chain'_singleton a)
  | a :: b :: t =>
    match inferInstanceAs (Decidable (p a b)), decChain p (b :: t) with
    | isTrue h1, isTrue h2 => isTrue (List.chain'_cons.mpr ⟨h1, h2⟩)
    | isFalse h1, _ => isFalse (fun hc => h1 (List.chain'_cons.mp hc).1)
    | _, isFalse h2 => isFalse (fun hc => h2 (List.chain'_cons.mp hc).2)

instance (l : List Segment) : Decidable (SortedBySeq l) :=
  decChain (fun a b => a.sequence ≤ b.sequence) l

instance (l : List Segment) : Decidable (NoGap l) :=
  decChain (fun a b => b.sequence = a.sequence + 1) l

instance (r : RenditionState) : Decidable (KeyCoherent r) :=
  List.decidableBAll _ r.segments

instance : IsTotal Segment (fun a b => a.sequence ≤ b.sequence) :=
  ⟨fun a b => Int.le_total a.sequence b.sequence⟩

instance : IsTrans Segment (fun a b => a.sequence ≤ b.sequence) :=
  ⟨fun _ _ _ h1 h2 => le_trans h1 h2⟩

instance : IsTotal (Int × Segment) (fun a b => a.1 ≤ b.1) :=
  ⟨fun a b => Int.le_total a.1 b.1⟩

instance : IsTrans (Int × Segment) (fun a b => a.1 ≤ b.1) :=
  ⟨fun _ _ _ h1 h2 => le_trans h1 h2⟩

/-- Concrete segments used by the scenario states (durations 2.0 s, the
values used throughout the repository's own tests). -/
def seg1 : Segment := { sequence := 1, duration := 2, path := "/1.ts", receivedAt := 0 }

def seg2 : Segment := { sequence := 2, duration := 2, path := "/2.ts", receivedAt := 0 }

def seg3 : Segment := { sequence := 3, duration := 2, path := "/3.ts", receivedAt := 0 }

def seg4 : Segment := { sequence := 4, duration := 2, path := "/4.ts", receivedAt := 0 }

def seg5 : Segment := { sequence := 5, duration := 2, path := "/5.ts", receivedAt := 0 }

/-- A duplicate of sequence 1 with different duration and path. -/
def seg1b : Segment := { sequence := 1, duration := 9, path := "/other.ts", receivedAt := 0 }

/-- Register one segment for stream `s1`, rendition `720p`, at tick 0. -/
def regStep (st : RepoState) (g : Segment) : RepoState :=
  (registerSegment st "s1" "720p" g 0).1

/-- The state after registering sequences 1, 2, 4, 5 (sequence 3 skipped). -/
def stA : RepoState :=
  regStep (regStep (regStep (regStep initState seg1) seg2) seg4) seg5

/-- `stA` after sequence 3 finally arrives. -/
def stB : RepoState := regStep stA seg3

/-- A one-stream, one-rendition, one-segment live state written out
literally, used by witnesses. -/
def wRend : RenditionState := { id := "720p", segments := [(1, seg1)], ended := false }

def wStream : StreamState := { id := "s1", renditions := [("720p", wRend)], ended := false }

def wSt : RepoState := [("s1", wStream)]

/-- The same state with both ended flags set, used by witnesses. -/
def wRendE : RenditionState := { id := "720p", segments := [(1, seg1)], ended := true }

def wStreamE : StreamState := { id := "s1", renditions := [("720p", wRendE)], ended := true }

def wStE : RepoState := [("s1", wStreamE)]

/-- The state used by the C4 counterexample: one segment registered, then
the stream ended. -/
def endedSt : RepoState := (endStream (regStep initState seg1) "s1").1

/-- The single store write performed by a successful `registerSegment`,
named so that case-analysis lemmas can refer to it. -/
def regWrite (st : RepoState) (sid rid : String) (streamD : StreamState)
    (rendD : RenditionState) (seg : Segment) (now : Nat) : RepoState :=
  let rendition2 := { rendD with
    segments := rendD.segments ++ [(seg.sequence, { seg with receivedAt := now })] }
  let stream2 := { streamD with renditions := setKey rid rendition2 streamD.renditions }
  setKey sid stream2 st

lemma lookupKey_setKey_self {κ α : Type} [DecidableEq κ] (k : κ) (v : α) :
    ∀ l : List (κ × α), lookupKey k (setKey k v l) = some v := by
  intro l
  induction l with
  | nil => simp [setKey, lookupKey]
  | cons p rest ih =>
    obtain ⟨k2, v2⟩ := p
    by_cases h : k2 = k
    · simp [setKey, lookupKey, h]
    · simp [setKey, lookupKey, h, ih]

lemma lookupKey_setKey_ne {κ α : Type} [DecidableEq κ] (k k' : κ) (v : α) (hne : k' ≠ k) :
    ∀ l : List (κ × α), lookupKey k' (setKey k v l) = lookupKey k' l := by
  intro l
  induction l with
  | nil => simp [setKey, lookupKey, Ne.symm hne]
  | cons p rest ih =>
    obtain ⟨k2, v2⟩ := p
    by_cases h : k2 = k
    · subst h
      simp [setKey, lookupKey, Ne.symm hne]
    · simp [setKey, lookupKey, h, ih]

lemma lookupKey_append_self {κ α : Type} [DecidableEq κ] (k : κ) (v : α) :
    ∀ l : List (κ × α), lookupKey k l = none → lookupKey k (l ++ [(k, v)]) = some v := by
  intro l
  induction l with
  | nil => intro _; simp [lookupKey]
  | cons p rest ih =>
    obtain ⟨k2, v2⟩ := p
    intro h
    by_cases h2 : k2 = k
    · simp [lookupKey, h2] at h
    · simp [lookupKey, h2] at h ⊢
      exact ih h

lemma lookupKey_map_val {κ α β : Type} [DecidableEq κ] (f : α → β) (k : κ) :
    ∀ l : List (κ × α),
      lookupKey k (l.map (fun p => (p.1, f p.2))) = (lookupKey k l).map f := by
  intro l
  induction l with
  | nil => simp [lookupKey]
  | cons p rest ih =>
    obtain ⟨k2, v2⟩ := p
    by_cases h : k2 = k
    · simp [lookupKey, h]
    · simp [lookupKey, h, ih]

lemma sortBySeq_perm (l : List Segment) : (sortBySeq l).Perm l :=
  List.perm_insertionSort _ l

lemma sortBySeq_length (l : List Segment) : (sortBySeq l).length = l.length :=
  List.length_insertionSort _ l

lemma sortBySeq_sorted (l : List Segment) : SortedBySeq (sortBySeq l) :=
  List.chain'_iff_pairwise.mpr (List.sorted_insertionSort _ l)

lemma sortBySeq_eq_of_sorted {l : List Segment} (h : SortedBySeq l) : sortBySeq l = l :=
  List.Sorted.insertionSort_eq (List.chain'_iff_pairwise.mp h)

lemma sortPairs_perm (l : List (Int × Segment)) : (sortPairs l).Perm l :=
  List.perm_insertionSort _ l

lemma sortPairs_sorted (l : List (Int × Segment)) :
    List.Chain' (fun a b : Int × Segment => a.1 ≤ b.1) (sortPairs l) :=
  List.chain'_iff_pairwise.mpr (List.sorted_insertionSort _ l)

lemma contigFrom_sublist : ∀ (l : List Segment) (prev : Int), (contigFrom prev l).Sublist l := by
  intro l
  induction l with
  | nil => intro prev; simp [contigFrom]
  | cons s rest ih =>
    intro prev
    by_cases h : s.sequence = prev + 1
    · simp only [contigFrom, if_pos h]
      exact (ih s.sequence).cons₂ s
    · simp only [contigFrom, if_neg h]
      exact List.nil_sublist _

lemma contigRun_sublist : ∀ l : List Segment, (contigRun l).Sublist l := by
  intro l
  cases l with
  | nil => simp [contigRun]
  | cons s rest => exact (contigFrom_sublist rest s.sequence).cons₂ s

lemma contigFrom_nogap : ∀ (l : List Segment) (s : Segment),
    NoGap (s :: contigFrom s.sequence l) := by
  intro l
  induction l with
  | nil =>
    intro s
    exact List.chain'_singleton s
  | cons b rest ih =>
    intro s
    by_cases h : b.sequence = s.sequence + 1
    · simp only [contigFrom, if_pos h]
      exact List.chain'_cons.mpr ⟨h, ih b⟩
    · simp only [contigFrom, if_neg h]
      exact List.chain'_singleton s

lemma contigRun_nogap : ∀ l : List Segment, NoGap (contigRun l) := by
  intro l
  cases l with
  | nil => exact List.chain'_nil
  | cons s rest => exact contigFrom_nogap rest s

lemma contigRun_ne_nil {l : List Segment} (h : l ≠ []) : contigRun l ≠ [] := by
  cases l with
  | nil => exact absurd rfl h
  | cons s rest => simp [contigRun]

lemma sortedBySeq_map_snd : ∀ l : List (Int × Segment),
    (∀ p ∈ l, p.1 = p.2.sequence) →
    List.Chain' (fun a b : Int × Segment => a.1 ≤ b.1) l →
    SortedBySeq (l.map Prod.snd) := by
  intro l
  induction l with
  | nil => intro _ _; exact List.chain'_nil
  | cons a t ih =>
    intro hc hs
    cases t with
    | nil => exact List.chain'_singleton a.2
    | cons b t2 =>
      have h1 : a.1 = a.2.sequence := hc a (by simp)
      have h2 : b.1 = b.2.sequence := hc b (by simp)
      rw [List.map_cons, List.map_cons]
      refine List.chain'_cons.mpr ⟨?_, ?_⟩
      · rw [← h1, ← h2]
        exact (List.chain'_cons.mp hs).1
      · have hrec := ih (fun p hp => hc p (List.mem_cons_of_mem a hp)) (List.chain'_cons.mp hs).2
        rw [List.map_cons] at hrec
        exact hrec

lemma registerSegment_of_streamEnded {st : RepoState} {sid : String} (rid : String)
    (seg : Segment) (now : Nat) {s : StreamState}
    (h : streamOf st sid = some s) (he : s.ended = true) :
    registerSegment st sid rid seg now = (st, some RegErr.streamEnded) := by
  unfold streamOf at h
  simp [registerSegment, h, he]

lemma endStream_of_none {st : RepoState} {sid : String} (h : streamOf st sid = none) :
    endStream st sid = (st, none) := by
  simp [endStream, h]

lemma endStream_of_ended {st : RepoState} {sid : String} {s : StreamState}
    (h : streamOf st sid = some s) (he : s.ended = true) :
    endStream st sid = (st, none) := by
  simp [endStream, h, he]

lemma endStream_of_live {st : RepoState} {sid : String} {s : StreamState}
    (h : streamOf st sid = some s) (he : s.ended = false) :
    endStream st sid =
      (setKey sid
        { s with
          ended := true
          renditions := s.renditions.map (fun p => (p.1, endRendition p.2)) } st,
       none) := by
  simp [endStream, h, he]

/-- Case analysis of `registerSegment`: either it leaves the state alone
(for every acceptance tick), or every guard passed and it performs the
single documented write (for every acceptance tick). -/
lemma register_shape (st : RepoState) (sid rid : String) (seg : Segment) :
    (∃ e, ∀ now, registerSegment st sid rid seg now = (st, e))
  ∨ (∃ streamD rendD,
      streamD = (lookupKey sid st).getD { id := sid, renditions := [], ended := false } ∧
      rendD = (lookupKey rid streamD.renditions).getD
        { id := rid, segments := [], ended := false } ∧
      streamD.ended = false ∧ rendD.ended = false ∧
      lookupKey seg.sequence rendD.segments = none ∧
      ∀ now, registerSegment st sid rid seg now =
        (regWrite st sid rid streamD rendD seg now, none)) := by
  by_cases h1 : ((lookupKey sid st).getD { id := sid, renditions := [], ended := false }).ended
  · exact Or.inl ⟨some RegErr.streamEnded, fun now => by simp [registerSegment, h1]⟩
  · by_cases h2 : ((lookupKey rid
        ((lookupKey sid st).getD
          { id := sid, renditions := [], ended := false }).renditions).getD
        { id := rid, segments := [], ended := false }).ended
    · exact Or.inl ⟨some RegErr.renditionEnded, fun now => by simp [registerSegment, h1, h2]⟩
    · by_cases h3 : (lookupKey seg.sequence
          ((lookupKey rid
            ((lookupKey sid st).getD
              { id := sid, renditions := [], ended := false }).renditions).getD
            { id := rid, segments := [], ended := false }).segments).isSome
      · exact Or.inl ⟨none, fun now => by simp [registerSegment, h1, h2, h3]⟩
      · refine Or.inr ⟨_, _, rfl, rfl, by simpa using h1, by simpa using h2,
          Option.not_isSome_iff_eq_none.mp h3, fun now => ?_⟩
        simp [registerSegment, regWrite, h1, h2, h3]

lemma runOps_nil (st : RepoState) : runOps st [] = st := rfl

lemma runOps_cons (st : RepoState) (op : Op) (ops : List Op) :
    runOps st (op :: ops) = runOps (applyOp st op) ops := rfl

/-- `registerSegment` preserves every stored stream: the stream keeps its
ended flag exactly, and every stored rendition keeps its ended flag
exactly. -/
lemma register_preserves {st : RepoState} (sid rid : String) (seg : Segment) (now : Nat)
    {sid0 : String} {s0 : StreamState} (h : streamOf st sid0 = some s0) :
    ∃ s1, streamOf ((registerSegment st sid rid seg now).1) sid0 = some s1 ∧
      s1.ended = s0.ended ∧
      ∀ rid0 r0, lookupKey rid0 s0.renditions = some r0 →
        ∃ r1, lookupKey rid0 s1.renditions = some r1 ∧ r1.ended = r0.ended := by
  rcases register_shape st sid rid seg with ⟨e, hE⟩ | ⟨streamD, rendD, hsd, hrd, _, _, _, hEq⟩
  · rw [hE now]
    exact ⟨s0, h, rfl, fun rid0 r0 hr0 => ⟨r0, hr0, rfl⟩⟩
  · rw [hEq now]
    simp only [regWrite]
    by_cases hsid : sid0 = sid
    · subst hsid
      unfold streamOf at h ⊢
      have hD : streamD = s0 := by rw [hsd, h]; rfl
      refine ⟨_, lookupKey_setKey_self _ _ _, by simp [hD], fun rid0 r0 hr0 => ?_⟩
      by_cases hrid : rid0 = rid
      · subst hrid
        have hrD : rendD = r0 := by rw [hrd, hD, hr0]; rfl
        exact ⟨_, by simpa using lookupKey_setKey_self rid0 _ _, by simp [hrD]⟩
      · exact ⟨r0, by simpa using (lookupKey_setKey_ne rid rid0 _ hrid _).trans (by rw [hD]; exact hr0), rfl⟩
    · unfold streamOf at h ⊢
      exact ⟨s0, (lookupKey_setKey_ne sid sid0 _ hsid _).trans h, rfl,
        fun rid0 r0 hr0 => ⟨r0, hr0, rfl⟩⟩

/-- `endStream` preserves every stored stream and rendition, and never
clears an ended flag. -/
lemma endStream_preserves {st : RepoState} (sid : String)
    {sid0 : String} {s0 : StreamState} (h : streamOf st sid0 = some s0) :
    ∃ s1, streamOf ((endStream st sid).1) sid0 = some s1 ∧
      (s0.ended = true → s1.ended = true) ∧
      ∀ rid0 r0, lookupKey rid0 s0.renditions = some r0 →
        ∃ r1, lookupKey rid0 s1.renditions = some r1 ∧ (r0.ended = true → r1.ended = true) := by
  cases hs : streamOf st sid with
  | none =>
    rw [endStream_of_none hs]
    exact ⟨s0, h, fun he => he, fun rid0 r0 hr0 => ⟨r0, hr0, fun he => he⟩⟩
  | some s =>
    cases hse : s.ended with
    | true =>
      rw [endStream_of_ended hs hse]
      exact ⟨s0, h, fun he => he, fun rid0 r0 hr0 => ⟨r0, hr0, fun he => he⟩⟩
    | false =>
      rw [endStream_of_live hs hse]
      by_cases hsid : sid0 = sid
      · subst hsid
        have hss : s = s0 := by rw [hs] at h; exact Option.some.inj h
        subst hss
        unfold streamOf
        refine ⟨_, lookupKey_setKey_self _ _ _, fun _ => rfl, fun rid0 r0 hr0 => ?_⟩
        refine ⟨endRendition r0, ?_, fun _ => rfl⟩
        show lookupKey rid0 (s.renditions.map (fun p => (p.1, endRendition p.2)))
          = some (endRendition r0)
        rw [lookupKey_map_val, hr0]
        rfl
      · unfold streamOf at h ⊢
        exact ⟨s0, (lookupKey_setKey_ne sid sid0 _ hsid _).trans h, fun he => he,
          fun rid0 r0 hr0 => ⟨r0, hr0, fun he => he⟩⟩

/-- One registry operation preserves streams and renditions and never
clears an ended flag. -/
lemma applyOp_preserves {st : RepoState} (op : Op)
    {sid0 : String} {s0 : StreamState} (h : streamOf st sid0 = some s0) :
    ∃ s1, streamOf (applyOp st op) sid0 = some s1 ∧
      (s0.ended = true → s1.ended = true) ∧
      ∀ rid0 r0, lookupKey rid0 s0.renditions = some r0 →
        ∃ r1, lookupKey rid0 s1.renditions = some r1 ∧ (r0.ended = true → r1.ended = true) := by
  cases op with
  | register sid rid seg now =>
    obtain ⟨s1, h1, h2, h3⟩ := register_preserves sid rid seg now h
    exact ⟨s1, h1, fun he => h2.trans he, fun rid0 r0 hr0 =>
      (h3 rid0 r0 hr0).imp (fun r1 hr1 => ⟨hr1.1, fun he => hr1.2.trans he⟩)⟩
  | endStr sid => exact endStream_preserves sid h
  | snapshot _ _ => exact ⟨s0, h, fun he => he, fun rid0 r0 hr0 => ⟨r0, hr0, fun he => he⟩⟩
  | countStreams => exact ⟨s0, h, fun he => he, fun rid0 r0 hr0 => ⟨r0, hr0, fun he => he⟩⟩

/-- Ended streams persist, ended, across any operation sequence. -/
lemma runOps_ended_persists (ops : List Op) :
    ∀ st : RepoState, ∀ sid s, streamOf st sid = some s → s.ended = true →
      ∃ s1, streamOf (runOps st ops) sid = some s1 ∧ s1.ended = true := by
  induction ops with
  | nil => exact fun st sid s h he => ⟨s, h, he⟩
  | cons op ops ih =>
    intro st sid s h he
    obtain ⟨s1, h1, h2, _⟩ := applyOp_preserves op h
    rw [runOps_cons]
    exact ih _ sid s1 h1 (h2 he)

lemma endedInv_init : EndedInv initState := by
  intro sid s h
  simp [streamOf, initState, lookupKey] at h

lemma endedInv_register {st : RepoState} (h : EndedInv st)
    (sid rid : String) (seg : Segment) (now : Nat) :
    EndedInv ((registerSegment st sid rid seg now).1) := by
  rcases register_shape st sid rid seg with ⟨e, hE⟩ | ⟨streamD, rendD, hsd, hrd, hse, hre, _, hEq⟩
  · rw [hE now]; exact h
  · rw [hEq now]
    simp only [regWrite]
    intro sid0 s1 hlook hend rid0 r1 hlookr
    unfold streamOf at hlook
    by_cases hsid : sid0 = sid
    · subst hsid
      rw [lookupKey_setKey_self] at hlook
      rw [← Option.some.inj hlook] at hend
      simp [hse] at hend
    · rw [lookupKey_setKey_ne sid sid0 _ hsid] at hlook
      exact h sid0 s1 hlook hend rid0 r1 hlookr

lemma endedInv_endStream {st : RepoState} (h : EndedInv st) (sid : String) :
    EndedInv ((endStream st sid).1) := by
  cases hs : streamOf st sid with
  | none => rw [endStream_of_none hs]; exact h
  | some s =>
    cases hse : s.ended with
    | true => rw [endStream_of_ended hs hse]; exact h
    | false =>
      rw [endStream_of_live hs hse]
      intro sid0 s1 hlook hend rid0 r1 hlookr
      unfold streamOf at hlook
      by_cases hsid : sid0 = sid
      · subst hsid
        rw [lookupKey_setKey_self] at hlook
        have hs1 := (Option.some.inj hlook).symm
        rw [hs1] at hlookr
        simp only [lookupKey_map_val] at hlookr
        obtain ⟨r0, _, hr0⟩ := Option.map_eq_some'.mp hlookr
        rw [← hr0]
        rfl
      · rw [lookupKey_setKey_ne sid sid0 _ hsid] at hlook
        exact h sid0 s1 hlook hend rid0 r1 hlookr

lemma endedInv_applyOp {st : RepoState} (h : EndedInv st) (op : Op) :
    EndedInv (applyOp st op) := by
  cases op with
  | register sid rid seg now => exact endedInv_register h sid rid seg now
  | endStr sid => exact endedInv_endStream h sid
  | snapshot _ _ => exact h
  | countStreams => exact h

lemma endedInv_runOps (ops : List Op) : ∀ st : RepoState, EndedInv st → EndedInv (runOps st ops) := by
  induction ops with
  | nil => exact fun st h => h
  | cons op ops ih => exact fun st h => ih _ (endedInv_applyOp h op)

/-- Registering the same segment twice leaves the state exactly as after
registering it once, in every state. -/
lemma register_idem (st : RepoState) (sid rid : String) (seg : Segment) (n1 n2 : Nat) :
    (registerSegment ((registerSegment st sid rid seg n1).1) sid rid seg n2).1
      = (registerSegment st sid rid seg n1).1 := by
  rcases register_shape st sid rid seg with ⟨e, hE⟩ | ⟨streamD, rendD, hsd, hrd, hse, hre, hdup, hEq⟩
  · rw [hE n1, hE n2]
  · rw [hEq n1]
    have hdupf := lookupKey_append_self seg.sequence { seg with receivedAt := n1 }
      rendD.segments hdup
    simp [registerSegment, regWrite, lookupKey_setKey_self, hse, hre, hdupf]

lemma renditionOf_eq_some {st : RepoState} {sid : String} {s : StreamState}
    (hs : streamOf st sid = some s) (rid : String) :
    renditionOf st sid rid = lookupKey rid s.renditions := by
  unfold renditionOf
  rw [hs]

/-- After `endStream` on an existing stream, the stream is stored with its
ended flag set. -/
lemma endStream_makes_ended {st : RepoState} {sid : String} {s : StreamState}
    (h : streamOf st sid = some s) :
    ∃ s1, streamOf ((endStream st sid).1) sid = some s1 ∧ s1.ended = true := by
  cases hse : s.ended with
  | true =>
    rw [endStream_of_ended h hse]
    exact ⟨s, h, hse⟩
  | false =>
    rw [endStream_of_live h hse]
    exact ⟨_, lookupKey_setKey_self _ _ _, rfl⟩

/-- C1: for every segment list sorted ascending by sequence and every
positive window size, the serving-path window selector
`contiguousVisibleSegments` succeeds and returns a subsequence of the
input in which any two adjacent elements differ in sequence by exactly 1
and whose length is at most the window size. -/
theorem C1_visible_window_no_gap_and_bounded (segs : List Segment) (w : Int)
    (hsorted : SortedBySeq segs) (hw : 0 < w) :
    ∃ out, contiguousVisibleSegments segs w = some out ∧
      out.Sublist segs ∧ NoGap out ∧ (out.length : Int) ≤ w := by
  by_cases hnil : segs = []
  · subst hnil
    exact ⟨[], by simp [contiguousVisibleSegments], List.nil_sublist _, List.chain'_nil,
      by simp; omega⟩
  · have hw' : ¬ w < 0 := by omega
    have hemp : segs.isEmpty = false := by simpa [List.isEmpty_iff] using hnil
    refine ⟨contigRun ((sortBySeq segs).drop (segs.length - w.toNat)), ?_, ?_, ?_, ?_⟩
    · simp [contiguousVisibleSegments, hemp, hw']
    · rw [sortBySeq_eq_of_sorted hsorted]
      exact (contigRun_sublist _).trans ((List.drop_suffix _ _).sublist)
    · exact contigRun_nogap _
    · have hlen1 := (contigRun_sublist ((sortBySeq segs).drop (segs.length - w.toNat))).length_le
      have hlen2 := List.length_drop (segs.length - w.toNat) (sortBySeq segs)
      have hlen3 := sortBySeq_length segs
      omega

/-- Witness for C1 at a concrete sorted two-element list and window size 2. -/
theorem C1_witness :
    SortedBySeq [seg1, seg2] ∧ (0 : Int) < 2 ∧
      ∃ out, contiguousVisibleSegments [seg1, seg2] 2 = some out ∧
        out.Sublist [seg1, seg2] ∧ NoGap out ∧ (out.length : Int) ≤ 2 :=
  ⟨by decide, by decide,
    C1_visible_window_no_gap_and_bounded [seg1, seg2] 2 (by decide) (by decide)⟩

/-- C3: evaluation of the window selector at non-positive window sizes.
With a negative window size and a non-empty input the Go code evaluates
`segs[len(segs)-windowSize:]` with a start index beyond the slice length
and panics (modelled as `none`): it neither rejects the input nor returns
an empty result, contradicting the spec's totality requirement.  Window
size 0 and empty inputs do return the empty window, and the unused sibling
`contiguousSlidingWindow` carries the guard the spec asks for. -/
theorem C3_negative_window_fault_eval :
    contiguousVisibleSegments [seg1] (-1) = none
  ∧ contiguousVisibleSegments [seg1] 0 = some []
  ∧ (∀ w : Int, contiguousVisibleSegments [] w = some [])
  ∧ contiguousSlidingWindow [seg1] (-1) = [] := by
  refine ⟨by decide, by decide, fun w => ?_, by decide⟩
  simp [contiguousVisibleSegments]

/-- C10: for every non-empty segment list and every window size of at
least 1, the serving-path window selector succeeds and keeps at least the
first element of the recency-biased candidate window: a gap can truncate
the visible window but never empty it. -/
theorem C10_window_nonempty (segs : List Segment) (w : Int)
    (hne : segs ≠ []) (hw : 1 ≤ w) :
    ∃ out, contiguousVisibleSegments segs w = some out ∧ out ≠ [] := by
  have hemp : segs.isEmpty = false := by simpa [List.isEmpty_iff] using hne
  have hw' : ¬ w < 0 := by omega
  refine ⟨contigRun ((sortBySeq segs).drop (segs.length - w.toNat)),
    by simp [contiguousVisibleSegments, hemp, hw'], ?_⟩
  apply contigRun_ne_nil
  have hlen := List.length_drop (segs.length - w.toNat) (sortBySeq segs)
  have hlen2 := sortBySeq_length segs
  have hpos : 0 < segs.length := List.length_pos.mpr hne
  have hlenpos : 0 < ((sortBySeq segs).drop (segs.length - w.toNat)).length := by omega
  exact List.length_pos.mp hlenpos

/-- Witness for C10 at a concrete one-element list and window size 1. -/
theorem C10_witness :
    ([seg1] : List Segment) ≠ [] ∧ (1 : Int) ≤ 1 ∧
      ∃ out, contiguousVisibleSegments [seg1] 1 = some out ∧ out ≠ [] :=
  ⟨by decide, by decide, C10_window_nonempty [seg1] 1 (by decide) (by decide)⟩

/-- C8: rendering an empty visible list yields exactly the header,
version, target-duration 1 and media-sequence 0 lines (the trailing empty
string is the artifact of the final newline), with no per-segment block;
and for every input the renderer's output with `ended = true` is exactly
the `ended = false` output with the `#EXT-X-ENDLIST` line appended, i.e.
the end marker is appended if and only if the ended flag is set. -/
theorem C8_render_empty_and_endlist (segs : List Segment) (ended : Bool) :
    linesOf (BuildLivePlaylist [] false) =
      ["#EXTM3U", "#EXT-X-VERSION:3", "#EXT-X-TARGETDURATION:1",
       "#EXT-X-MEDIA-SEQUENCE:0", ""]
  ∧ linesOf (BuildLivePlaylist [] true) =
      ["#EXTM3U", "#EXT-X-VERSION:3", "#EXT-X-TARGETDURATION:1",
       "#EXT-X-MEDIA-SEQUENCE:0", "#EXT-X-ENDLIST", ""]
  ∧ BuildLivePlaylist segs ended
      = playlistBody segs ++ (if ended then "#EXT-X-ENDLIST\n" else "")
  ∧ BuildLivePlaylist segs true = BuildLivePlaylist segs false ++ "#EXT-X-ENDLIST\n"
  ∧ BuildLivePlaylist segs false = playlistBody segs := by
  refine ⟨by decide, by decide, rfl, ?_, ?_⟩
  · simp [BuildLivePlaylist, String.append_empty]
  · simp [BuildLivePlaylist, String.append_empty]

/-- C9: the two window-selection strategies disagree on the sorted input
1, 2, 4, 5 with window size 2 (the history-anchored variant returns the
run before the gap, the live-edge variant the run at the live edge), and
the playlist actually served by `GetPlaylist` at that state is the one
rendered from the live-edge variant's window. -/
theorem C9_dual_window_algorithms_differ :
    contiguousSlidingWindow [seg1, seg2, seg4, seg5] 2 = [seg1, seg2]
  ∧ contiguousVisibleSegments [seg1, seg2, seg4, seg5] 2 = some [seg4, seg5]
  ∧ contiguousVisibleSegments [seg1, seg2, seg4, seg5] 2
      ≠ some (contiguousSlidingWindow [seg1, seg2, seg4, seg5] 2)
  ∧ getRenditionSnapshot stA "s1" "720p" = some ([seg1, seg2, seg4, seg5], false)
  ∧ GetPlaylist 2 stA "s1" "720p" = some (some (BuildLivePlaylist [seg4, seg5] false))
  ∧ BuildLivePlaylist [seg4, seg5] false ≠ BuildLivePlaylist [seg1, seg2] false := by
  decide

/-- C2 counterexample: in the scenario's final state only the five
registered segments 1..5 exist and all five are visible, so "all six
become visible" is false — there is no sixth segment. -/
theorem C2_counterexample :
    getRenditionSnapshot stB "s1" "720p" = some ([seg1, seg2, seg3, seg4, seg5], false)
  ∧ contiguousVisibleSegments [seg1, seg2, seg3, seg4, seg5] 6
      = some [seg1, seg2, seg3, seg4, seg5]
  ∧ ([seg1, seg2, seg3, seg4, seg5] : List Segment).length = 5
  ∧ ([seg1, seg2, seg3, seg4, seg5] : List Segment).length ≠ 6 := by
  decide

set_option maxRecDepth 8192 in
/-- C2 as amended: with window size 6, after registering sequences
1, 2, 4, 5 the serving path shows exactly segments 1 and 2; after
sequence 3 is registered, all five registered segments become visible. -/
theorem C2_window_freeze_and_heal :
    GetPlaylist 6 stA "s1" "720p" = some (some (BuildLivePlaylist [seg1, seg2] false))
  ∧ getRenditionSnapshot stA "s1" "720p" = some ([seg1, seg2, seg4, seg5], false)
  ∧ contiguousVisibleSegments [seg1, seg2, seg4, seg5] 6 = some [seg1, seg2]
  ∧ GetPlaylist 6 stB "s1" "720p"
      = some (some (BuildLivePlaylist [seg1, seg2, seg3, seg4, seg5] false))
  ∧ getRenditionSnapshot stB "s1" "720p" = some ([seg1, seg2, seg3, seg4, seg5], false)
  ∧ contiguousVisibleSegments [seg1, seg2, seg3, seg4, seg5] 6
      = some [seg1, seg2, seg3, seg4, seg5] := by
  decide

/-- C4 counterexample: after the stream has been ended, re-registering an
already-registered `(stream, rendition, sequence)` does return an error
(`StreamEnded`), so "no error is returned ... for every state" fails.
(The state is still left unchanged.) -/
theorem C4_counterexample :
    renditionOf endedSt "s1" "720p" = some wRendE
  ∧ lookupKey seg1b.sequence wRendE.segments = some seg1
  ∧ registerSegment endedSt "s1" "720p" seg1b 7 = (endedSt, some RegErr.streamEnded)
  ∧ some RegErr.streamEnded ≠ (none : Option RegErr) := by
  decide

/-- C4 as amended: registering a segment with the same (stream, rendition,
sequence) as an already-registered segment succeeds as a no-op in every
state in which that stream and rendition are not ended — no error is
returned, the state is unchanged, and the same rendition record, hence the
first registration's duration and path (`seg0`), is still stored under
that sequence; and in every state, registering the same segment twice
leaves the state equal to registering it once. -/
theorem C4_duplicate_registration_idempotent (st : RepoState) (sid rid : String)
    (seg : Segment) (now : Nat) (stream : StreamState) (rendition : RenditionState)
    (seg0 : Segment)
    (hs : streamOf st sid = some stream) (hse : stream.ended = false)
    (hr : lookupKey rid stream.renditions = some rendition) (hre : rendition.ended = false)
    (hdup : lookupKey seg.sequence rendition.segments = some seg0) :
    registerSegment st sid rid seg now = (st, none)
  ∧ renditionOf ((registerSegment st sid rid seg now).1) sid rid = some rendition
  ∧ lookupKey seg.sequence rendition.segments = some seg0
  ∧ ∀ (st2 : RepoState) (sid2 rid2 : String) (seg2 : Segment) (n1 n2 : Nat),
      (registerSegment ((registerSegment st2 sid2 rid2 seg2 n1).1) sid2 rid2 seg2 n2).1
        = (registerSegment st2 sid2 rid2 seg2 n1).1 := by
  have h1 : registerSegment st sid rid seg now = (st, none) := by
    unfold streamOf at hs
    have hd : (lookupKey seg.sequence rendition.segments).isSome = true := by
      rw [hdup]
      rfl
    simp [registerSegment, hs, hse, hr, hre, hd]
  refine ⟨h1, ?_, hdup, fun st2 sid2 rid2 seg2 n1 n2 => register_idem st2 sid2 rid2 seg2 n1 n2⟩
  rw [h1]
  exact (renditionOf_eq_some hs rid).trans hr

/-- Witness for C4 at a concrete live state holding sequence 1, re-offered
with a different duration and path. -/
theorem C4_witness :
    streamOf wSt "s1" = some wStream ∧ wStream.ended = false
  ∧ lookupKey "720p" wStream.renditions = some wRend ∧ wRend.ended = false
  ∧ lookupKey seg1b.sequence wRend.segments = some seg1
  ∧ (registerSegment wSt "s1" "720p" seg1b 3 = (wSt, none)
      ∧ renditionOf ((registerSegment wSt "s1" "720p" seg1b 3).1) "s1" "720p" = some wRend
      ∧ lookupKey seg1b.sequence wRend.segments = some seg1
      ∧ ∀ (st2 : RepoState) (sid2 rid2 : String) (seg2 : Segment) (n1 n2 : Nat),
          (registerSegment ((registerSegment st2 sid2 rid2 seg2 n1).1) sid2 rid2 seg2 n2).1
            = (registerSegment st2 sid2 rid2 seg2 n1).1) :=
  ⟨by decide, by decide, by decide, by decide, by decide,
    C4_duplicate_registration_idempotent wSt "s1" "720p" seg1b 3 wStream wRend seg1
      (by decide) (by decide) (by decide) (by decide) (by decide)⟩

/-- C5: in every state reachable from the empty store by registry
operations, an ended stream contains only ended renditions; and over any
single registry operation from any state, ended flags of streams and of
renditions are monotonic (once true they stay true). -/
theorem C5_ended_monotonic_and_cascading (ops : List Op) (st : RepoState) (op : Op)
    (sid rid : String) (s : StreamState) (r : RenditionState)
    (hs : streamOf st sid = some s) (hse : s.ended = true)
    (hr : renditionOf st sid rid = some r) (hre : r.ended = true) :
    EndedInv (runOps initState ops)
  ∧ (∃ s1, streamOf (applyOp st op) sid = some s1 ∧ s1.ended = true)
  ∧ (∃ r1, renditionOf (applyOp st op) sid rid = some r1 ∧ r1.ended = true) := by
  obtain ⟨s1, h1, h2, h3⟩ := applyOp_preserves op hs
  rw [renditionOf_eq_some hs rid] at hr
  obtain ⟨r1, hr1, hr2⟩ := h3 rid r hr
  refine ⟨endedInv_runOps ops initState endedInv_init, ⟨s1, h1, h2 hse⟩, ⟨r1, ?_, hr2 hre⟩⟩
  rw [renditionOf_eq_some h1 rid]
  exact hr1

/-- Witness for C5 at a concrete fully ended state and a concrete
operation sequence. -/
theorem C5_witness :
    streamOf wStE "s1" = some wStreamE ∧ wStreamE.ended = true
  ∧ renditionOf wStE "s1" "720p" = some wRendE ∧ wRendE.ended = true
  ∧ (EndedInv (runOps initState [Op.register "s1" "720p" seg1 0, Op.endStr "s1"])
      ∧ (∃ s1, streamOf (applyOp wStE (Op.register "s1" "720p" seg3 1)) "s1" = some s1 ∧
          s1.ended = true)
      ∧ (∃ r1, renditionOf (applyOp wStE (Op.register "s1" "720p" seg3 1)) "s1" "720p"
          = some r1 ∧ r1.ended = true)) :=
  ⟨by decide, by decide, by decide, by decide,
    C5_ended_monotonic_and_cascading [Op.register "s1" "720p" seg1 0, Op.endStr "s1"]
      wStE (Op.register "s1" "720p" seg3 1) "s1" "720p" wStreamE wRendE
      (by decide) (by decide) (by decide) (by decide)⟩

/-- C6: after `endStream` on an existing stream, every later
`registerSegment` for that stream — after any further operation sequence,
for any rendition and segment — fails with `StreamEnded` and returns the
state unchanged; repeated `endStream` is a no-op, and `endStream` on an
unknown stream is a no-op (never an error). -/
theorem C6_register_after_end_rejected (st : RepoState) (sid : String) (s : StreamState)
    (ops : List Op) (rid : String) (seg : Segment) (now : Nat)
    (st2 : RepoState) (sid2 : String)
    (hs : streamOf st sid = some s) (h2 : streamOf st2 sid2 = none) :
    registerSegment (runOps ((endStream st sid).1) ops) sid rid seg now
      = (runOps ((endStream st sid).1) ops, some RegErr.streamEnded)
  ∧ endStream (runOps ((endStream st sid).1) ops) sid
      = (runOps ((endStream st sid).1) ops, none)
  ∧ endStream st2 sid2 = (st2, none) := by
  obtain ⟨s1, h1, he1⟩ := endStream_makes_ended hs
  obtain ⟨s2, hs2, he2⟩ := runOps_ended_persists ops _ sid s1 h1 he1
  exact ⟨registerSegment_of_streamEnded rid seg now hs2 he2,
    endStream_of_ended hs2 he2, endStream_of_none h2⟩

/-- Witness for C6 at a concrete live state, one interleaved operation on
another stream, and a concrete unknown stream id. -/
theorem C6_witness :
    streamOf wSt "s1" = some wStream ∧ streamOf initState "nope" = none
  ∧ (registerSegment (runOps ((endStream wSt "s1").1) [Op.register "z" "480p" seg2 4])
        "s1" "720p" seg3 9
      = (runOps ((endStream wSt "s1").1) [Op.register "z" "480p" seg2 4],
         some RegErr.streamEnded)
    ∧ endStream (runOps ((endStream wSt "s1").1) [Op.register "z" "480p" seg2 4]) "s1"
      = (runOps ((endStream wSt "s1").1) [Op.register "z" "480p" seg2 4], none)
    ∧ endStream initState "nope" = (initState, none)) :=
  ⟨by decide, by decide,
    C6_register_after_end_rejected wSt "s1" wStream [Op.register "z" "480p" seg2 4]
      "720p" seg3 9 initState "nope" (by decide) (by decide)⟩

/-- C7: the snapshot returns `none` exactly when the stream or the
rendition does not exist; otherwise, writing the stored rendition as `r`,
it returns `r`'s ended flag together with a permutation of every stored
segment, sorted ascending by sequence whenever the rendition stores each
segment under its own sequence number (which registration guarantees). -/
theorem C7_snapshot_contract (st : RepoState) (sid rid : String) :
    (getRenditionSnapshot st sid rid = none ↔
      (streamOf st sid = none ∨
        ∃ s, streamOf st sid = some s ∧ lookupKey rid s.renditions = none))
  ∧ ∀ r segs e, renditionOf st sid rid = some r →
      getRenditionSnapshot st sid rid = some (segs, e) →
      e = r.ended ∧ segs.Perm (r.segments.map Prod.snd) ∧
        (KeyCoherent r → SortedBySeq segs) := by
  constructor
  · cases hs : streamOf st sid with
    | none => simp [getRenditionSnapshot, hs]
    | some s =>
      cases hr : lookupKey rid s.renditions with
      | none => simp [getRenditionSnapshot, hs, hr]
      | some r => simp [getRenditionSnapshot, hs, hr]
  · intro r segs e hrend hsnap
    cases hs : streamOf st sid with
    | none => simp [renditionOf, hs] at hrend
    | some s =>
      rw [renditionOf_eq_some hs rid] at hrend
      simp only [getRenditionSnapshot, hs, hrend] at hsnap
      obtain ⟨h1, h2⟩ := Prod.mk.injEq .. ▸ Option.some.inj hsnap
      refine ⟨h2.symm, ?_, ?_⟩
      · rw [← h1]
        exact (sortPairs_perm r.segments).map Prod.snd
      · intro hkc
        rw [← h1]
        refine sortedBySeq_map_snd _ ?_ (sortPairs_sorted _)
        intro p hp
        exact hkc p ((sortPairs_perm r.segments).mem_iff.mp hp)

/-- Witness for C7 at a concrete one-segment state. -/
theorem C7_witness :
    renditionOf wSt "s1" "720p" = some wRend
  ∧ getRenditionSnapshot wSt "s1" "720p" = some ([seg1], false)
  ∧ KeyCoherent wRend
  ∧ false = wRend.ended
  ∧ ([seg1] : List Segment).Perm (wRend.segments.map Prod.snd)
  ∧ SortedBySeq [seg1] := by
  have h := (C7_snapshot_contract wSt "s1" "720p").2 wRend [seg1] false
    (by decide) (by decide)
  exact ⟨by decide, by decide, by decide, h.1, h.2.1, h.2.2 (by decide)⟩

end HLS
